import Mathlib

/-!
Verification of the RoseWire relay server core against its specification.

The definitions below are a shallow embedding of the Go sources:
  * src/server/main.go   — session dispatch, data-stream pairing, identity store
  * src/unnamed/part_000 — file registry (files.go)
  * src/unnamed/part_003 — chat hub (clients, broadcast/unicast, transfer relay)

Strings whose internal structure matters (subsystem commands, the identity
store's file format) are modelled as lists of characters; strings used only
as opaque keys (nicknames, transfer ids) are Lean `String`s.
-/

namespace RoseWire

/-- Character-list strings, used where the Go code parses string contents. -/
abbrev Str := List Char

/-- `strings.Split(s, sep)` for a one-character separator.
`splitOnC sep []` is `[[]]`, matching Go's `Split("", sep) = [""]`. -/
def splitOnC (sep : Char) : Str → List Str
  | [] => [[]]
  | c :: cs =>
    let r := splitOnC sep cs
    if c = sep then [] :: r
    else
      match r with
      | [] => [[c]]
      | h :: t => (c :: h) :: t

/-- `strings.HasPrefix` on character lists. -/
def isPre : Str → Str → Bool
  | [], _ => true
  | _ :: _, [] => false
  | a :: as, b :: bs => a = b && isPre as bs

/-- Association-list lookup (Go map read `m[k]`). -/
def lookupA {α β : Type} [DecidableEq α] (k : α) : List (α × β) → Option β
  | [] => none
  | (k', v) :: rest => if k = k' then some v else lookupA k rest

/-- Association-list overwrite-insert (Go map write `m[k] = v`). -/
def insertA {α β : Type} [DecidableEq α] (k : α) (v : β) : List (α × β) → List (α × β)
  | [] => [(k, v)]
  | (k', v') :: rest => if k = k' then (k, v) :: rest else (k', v') :: insertA k v rest

/-- Association-list deletion (Go `delete(m, k)`). -/
def eraseA {α β : Type} [DecidableEq α] (k : α) : List (α × β) → List (α × β)
  | [] => []
  | (k', v') :: rest => if k = k' then rest else (k', v') :: eraseA k rest

theorem lookupA_insertA_self {α β : Type} [DecidableEq α] (k : α) (v : β)
    (m : List (α × β)) : lookupA k (insertA k v m) = some v := by
  induction m with
  | nil => simp [insertA, lookupA]
  | cons hd tl ih =>
    obtain ⟨k', v'⟩ := hd
    by_cases h : k = k' <;> simp [insertA, lookupA, h, ih]

theorem lookupA_insertA_ne {α β : Type} [DecidableEq α] {x k : α} (v : β)
    (m : List (α × β)) (hx : x ≠ k) :
    lookupA x (insertA k v m) = lookupA x m := by
  induction m with
  | nil => simp [insertA, lookupA, hx]
  | cons hd tl ih =>
    obtain ⟨k', v'⟩ := hd
    by_cases h : k = k'
    · subst h
      simp [insertA, lookupA, hx]
    · by_cases h2 : x = k' <;> simp [insertA, lookupA, h, h2, ih]

/-! ## §4.2 Session Front-End: `handleSessionRequests` (src/server/main.go:262-318)

The front-end inspects each session request and classifies it.  An `exec`
request whose command is `subsystem:chat`, or a native `subsystem` request
named `chat`, yields the control channel.  A command with the
`data-transfer:` shape is split on `:`; exactly three parts whose first is
`data-transfer` yield a data channel keyed `parts[1] ++ ":" ++ parts[2]`.
A `shell` request is answered with a refusal line.  No other request is
handled. -/

inductive SessReq where
  | exec (cmd : Str)
  | subsys (name : Str)
  | shell
  | other
  deriving DecidableEq, Repr

inductive ChannelClass where
  | chat
  | data (key : Str)
  | shellReject
  | unhandled
  deriving DecidableEq, Repr

/-- The data-transfer shape check shared by both encodings
(src/server/main.go:276-280 and 287-291): split the subsystem string on
`:` and require exactly three parts headed by `data-transfer`. -/
def dataKeyOf (subsystem : Str) : Option Str :=
  match splitOnC ':' subsystem with
  | [a, b, c] =>
    if a = "data-transfer".toList then some (b ++ ':' :: c) else none
  | _ => none

/-- Classification of one session request, from `handleSessionRequests`. -/
def classifyRequest : SessReq → ChannelClass
  | .exec cmd =>
    if cmd = "subsystem:chat".toList then .chat
    else if isPre "subsystem:data-transfer:".toList cmd then
      match dataKeyOf (cmd.drop 10) with
      | some k => .data k
      | none => .unhandled
    else .unhandled
  | .subsys name =>
    if name = "chat".toList then .chat
    else if isPre "data-transfer:".toList name then
      match dataKeyOf name with
      | some k => .data k
      | none => .unhandled
    else .unhandled
  | .shell => .shellReject
  | .other => .unhandled

/-- `[0-9a-fA-F]`. -/
def isHexDigitC (c : Char) : Bool :=
  ('0' ≤ c && c ≤ '9') || ('a' ≤ c && c ≤ 'f') || ('A' ≤ c && c ≤ 'F')

/-- `[0-9]`. -/
def isDigitC (c : Char) : Bool :=
  '0' ≤ c && c ≤ '9'

/-- The specification's validity predicate for a data-transfer subsystem
name: the id is exactly 32 hexadecimal digits and the index is a non-empty
decimal digit string.  (This predicate follows the spec's words; it is the
yardstick the claim measures `classifyRequest` against.) -/
def specValidDataName (id idx : Str) : Prop :=
  id.length = 32 ∧ (∀ c ∈ id, isHexDigitC c) ∧ idx ≠ [] ∧ ∀ c ∈ idx, isDigitC c

instance (id idx : Str) : Decidable (specValidDataName id idx) := by
  unfold specValidDataName
  infer_instance

theorem splitOnC_no_sep {sep : Char} {xs : Str} (h : sep ∉ xs) :
    splitOnC sep xs = [xs] := by
  induction xs with
  | nil => rfl
  | cons c cs ih =>
    have hc : c ≠ sep := fun hceq => h (hceq ▸ List.mem_cons_self c cs)
    have hcs : sep ∉ cs := fun hm => h (List.mem_cons_of_mem c hm)
    simp [splitOnC, hc, ih hcs]

theorem splitOnC_append {sep : Char} {xs : Str} (ys : Str) (h : sep ∉ xs) :
    splitOnC sep (xs ++ sep :: ys) = xs :: splitOnC sep ys := by
  induction xs with
  | nil => simp [splitOnC]
  | cons c cs ih =>
    have hc : c ≠ sep := fun hceq => h (hceq ▸ List.mem_cons_self c cs)
    have hcs : sep ∉ cs := fun hm => h (List.mem_cons_of_mem c hm)
    simp [splitOnC, hc, ih hcs]

theorem isPre_append (p s : Str) : isPre p (p ++ s) = true := by
  induction p with
  | nil => rfl
  | cons c cs ih => simp [isPre, ih]

theorem hexDigit_ne_colon {c : Char} (h : isHexDigitC c = true) : c ≠ ':' := by
  intro hc
  subst hc
  exact absurd h (by decide)

theorem digit_ne_colon {c : Char} (h : isDigitC c = true) : c ≠ ':' := by
  intro hc
  subst hc
  exact absurd h (by decide)

theorem dataKeyOf_wellformed {id idx : Str} (hid : ':' ∉ id) (hidx : ':' ∉ idx) :
    dataKeyOf ("data-transfer:".toList ++ (id ++ ':' :: idx)) = some (id ++ ':' :: idx) := by
  have h1 : "data-transfer:".toList = "data-transfer".toList ++ [':'] := by decide
  have h2 : "data-transfer:".toList ++ (id ++ ':' :: idx)
      = "data-transfer".toList ++ ':' :: (id ++ ':' :: idx) := by
    rw [h1, List.append_assoc]
    rfl
  have hdt : ':' ∉ "data-transfer".toList := by decide
  unfold dataKeyOf
  rw [h2, splitOnC_append _ hdt, splitOnC_append _ hid, splitOnC_no_sep hidx]
  simp

/-- C4 counterexample: the subsystem name `data-transfer::0` — whose
transfer id has zero hex characters — is classified as a data channel by
both encodings, although the spec's validity predicate rejects it. -/
theorem c4_empty_id_classified_as_data :
    classifyRequest (.subsys ("data-transfer::0".toList)) = .data (":0".toList)
    ∧ classifyRequest (.exec ("subsystem:data-transfer::0".toList)) = .data (":0".toList)
    ∧ ¬ specValidDataName [] ['0'] := by
  refine ⟨by decide, by decide, ?_⟩
  intro h
  exact absurd h.1 (by decide)

/-- C4 (amended): a session request naming `data-transfer:<id>:<index>`
(either as a native subsystem request or as an exec request with command
`subsystem:data-transfer:<id>:<index>`) is classified as a data channel
whenever `<id>` and `<index>` are colon-free — the code checks only the
three-part colon shape, so ids that are empty, shorter than 32 characters,
or non-hex are also accepted; every spec-valid name (32 hex digits plus a
decimal index) is in particular accepted. -/
theorem c4_data_channel_shape_only (id idx : Str)
    (hid : ':' ∉ id) (hidx : ':' ∉ idx) :
    classifyRequest (.subsys ("data-transfer:".toList ++ (id ++ ':' :: idx)))
      = .data (id ++ ':' :: idx)
    ∧ classifyRequest (.exec ("subsystem:data-transfer:".toList ++ (id ++ ':' :: idx)))
      = .data (id ++ ':' :: idx) := by
  have hkey := dataKeyOf_wellformed hid hidx
  constructor
  · have hne : "data-transfer:".toList ++ (id ++ ':' :: idx) ≠ "chat".toList := by
      intro h
      have hlen := congrArg List.length h
      simp only [List.length_append, List.length_cons] at hlen
      have e1 : ("data-transfer:".toList).length = 14 := by decide
      have e2 : ("chat".toList).length = 4 := by decide
      rw [e1, e2] at hlen
      omega
    simp only [classifyRequest, if_neg hne, isPre_append, if_pos rfl, hkey, if_true]
  · have hne : "subsystem:data-transfer:".toList ++ (id ++ ':' :: idx)
        ≠ "subsystem:chat".toList := by
      intro h
      have hlen := congrArg List.length h
      simp only [List.length_append, List.length_cons] at hlen
      have e1 : ("subsystem:data-transfer:".toList).length = 24 := by decide
      have e2 : ("subsystem:chat".toList).length = 14 := by decide
      rw [e1, e2] at hlen
      omega
    have hdrop : ("subsystem:data-transfer:".toList ++ (id ++ ':' :: idx)).drop 10
        = "data-transfer:".toList ++ (id ++ ':' :: idx) := by
      have hsplit : "subsystem:data-transfer:".toList
          = "subsystem:".toList ++ "data-transfer:".toList := by decide
      rw [hsplit, List.append_assoc,
        show (10 : Nat) = ("subsystem:".toList).length from by decide]
      exact List.drop_left _ _
    simp only [classifyRequest, if_neg hne, isPre_append, if_pos rfl, hdrop, hkey, if_true]

/-- Witness for C4's amended theorem at the concrete id `a`, index `1`. -/
theorem c4_data_channel_shape_only_witness :
    classifyRequest (.subsys ("data-transfer:a:1".toList)) = .data ("a:1".toList) := by
  have h := c4_data_channel_shape_only ['a'] ['1'] (by decide) (by decide)
  exact h.1

/-! ## §4.4 Data-Stream Pairing Manager (src/server/main.go:31-102)

Channels are modelled by numeric identifiers; the manager's state is its
`pending` rendezvous map.  Every map operation of the Go code runs under
`dsm.mu`, so each is one atomic step here.  `pipeStreams`'s closing
behaviour (a `sync.Once` guarding a function that closes both channels) is
modelled by `SpliceState`: `finishCopy` is the `once.Do(closeFunc)` a
finished copy direction performs. -/

/-- The 30-second rendezvous timeout (`30 * time.Second`). -/
def pairTimeoutSeconds : Nat := 30

structure DSMState where
  pending : List (String × Nat)
  deriving DecidableEq, Repr

inductive PairOutcome where
  /-- First arrival: the channel was parked in the pending map. -/
  | parked
  /-- Second arrival: the stored peer channel was removed for splicing. -/
  | paired (peer : Nat)
  deriving DecidableEq, Repr

/-- `DataStreamManager.Pair` (src/server/main.go:70-102), the part under
the mutex: look up the key; if a peer is parked, remove it and splice;
otherwise park the incoming channel. -/
def Pair (key : String) (newChan : Nat) (st : DSMState) : PairOutcome × DSMState :=
  match lookupA key st.pending with
  | some peerChan => (.paired peerChan, ⟨eraseA key st.pending⟩)
  | none => (.parked, ⟨insertA key newChan st.pending⟩)

/-- The timeout watchdog body (src/server/main.go:91-101): after 30 s,
if the same key still maps to the same channel, evict and close it.
Returns whether the parked channel was closed. -/
def timeoutSweep (key : String) (newChan : Nat) (st : DSMState) : Bool × DSMState :=
  match lookupA key st.pending with
  | some ch =>
    if ch = newChan then (true, ⟨eraseA key st.pending⟩) else (false, st)
  | none => (false, st)

/-- The closure state of one splice: whether the `sync.Once` has fired,
and the `Close` calls issued so far (channel ids, in order). -/
structure SpliceState where
  onceFired : Bool
  closes : List Nat
  deriving DecidableEq, Repr

/-- One copy direction of `pipeStreams` (src/server/main.go:45-66)
finishing: `once.Do(closeFunc)` where `closeFunc` closes both channels. -/
def finishCopy (c1 c2 : Nat) (ps : SpliceState) : SpliceState :=
  if ps.onceFired then ps else ⟨true, ps.closes ++ [c1, c2]⟩

theorem lookupA_eraseA_self {α β : Type} [DecidableEq α] (k : α)
    (m : List (α × β)) (hnd : (m.map Prod.fst).Nodup) :
    lookupA k (eraseA k m) = none := by
  induction m with
  | nil => rfl
  | cons hd tl ih =>
    obtain ⟨k', v'⟩ := hd
    simp only [List.map_cons, List.nodup_cons] at hnd
    by_cases h : k = k'
    · subst h
      simp only [eraseA, if_pos rfl]
      clear ih
      induction tl with
      | nil => rfl
      | cons hd2 tl2 ih2 =>
        obtain ⟨k2, v2⟩ := hd2
        simp only [List.map_cons, List.mem_cons] at hnd
        have hne : k ≠ k2 := fun he => hnd.1 (Or.inl he)
        simp only [lookupA, if_neg hne]
        exact ih2 ⟨fun hm => hnd.1 (Or.inr hm), (List.nodup_cons.mp hnd.2).2⟩
    · simp only [eraseA, if_neg h, lookupA, if_neg h]
      exact ih hnd.2

/-- C6: rendezvous pairing and single closure.
(1) A first arrival for a key parks its channel in the pending map.
(2) A second arrival removes the entry and is paired with the parked peer.
(3) In a splice, whichever copy direction finishes first closes both
channels, each exactly once; the once-guard makes the other direction's
completion (in either argument order) a no-op.
(4) The timeout closes a parked channel exactly when the same key still
maps to the same channel, removing the entry; otherwise it does nothing.
(5) The timeout is 30 seconds. -/
theorem c6_pairing_rendezvous_single_close :
    (∀ (st : DSMState) (key : String) (ch : Nat),
      lookupA key st.pending = none →
        Pair key ch st = (.parked, ⟨insertA key ch st.pending⟩)
        ∧ lookupA key (Pair key ch st).2.pending = some ch)
    ∧ (∀ (st : DSMState) (key : String) (ch peer : Nat),
      lookupA key st.pending = some peer →
        Pair key ch st = (.paired peer, ⟨eraseA key st.pending⟩)
        ∧ ((st.pending.map Prod.fst).Nodup →
            lookupA key (Pair key ch st).2.pending = none))
    ∧ (∀ c1 c2 : Nat,
      (finishCopy c1 c2 ⟨false, []⟩).closes = [c1, c2]
      ∧ (∀ a b : Nat, finishCopy a b (finishCopy c1 c2 ⟨false, []⟩) = finishCopy c1 c2 ⟨false, []⟩)
      ∧ (c1 ≠ c2 →
          (finishCopy c1 c2 ⟨false, []⟩).closes.count c1 = 1
          ∧ (finishCopy c1 c2 ⟨false, []⟩).closes.count c2 = 1))
    ∧ (∀ (st : DSMState) (key : String) (ch : Nat),
      lookupA key st.pending = some ch →
        timeoutSweep key ch st = (true, ⟨eraseA key st.pending⟩))
    ∧ (∀ (st : DSMState) (key : String) (ch : Nat),
      lookupA key st.pending ≠ some ch →
        timeoutSweep key ch st = (false, st))
    ∧ pairTimeoutSeconds = 30 := by
  refine ⟨?_, ?_, ?_, ?_, ?_, rfl⟩
  · intro st key ch h
    refine ⟨by simp [Pair, h], ?_⟩
    simp [Pair, h, lookupA_insertA_self]
  · intro st key ch peer h
    refine ⟨by simp [Pair, h], fun hnd => ?_⟩
    simp [Pair, h, lookupA_eraseA_self key st.pending hnd]
  · intro c1 c2
    refine ⟨rfl, fun a b => rfl, fun hne => ?_⟩
    constructor
    · simp [finishCopy, List.count_cons, hne]
    · simp [finishCopy, List.count_cons, hne, Ne.symm hne]
  · intro st key ch h
    simp [timeoutSweep, h]
  · intro st key ch h
    unfold timeoutSweep
    match hl : lookupA key st.pending with
    | none => rfl
    | some c =>
      have : c ≠ ch := fun he => h (by rw [hl, he])
      simp [this]

/-- Witness for C6 at a concrete state: a first arrival for key `t:0`
parks channel 7, and the subsequent timeout closes it. -/
theorem c6_pairing_rendezvous_single_close_witness :
    Pair "t:0" 7 ⟨[]⟩ = (.parked, ⟨[("t:0", 7)]⟩)
    ∧ timeoutSweep "t:0" 7 ⟨[("t:0", 7)]⟩ = (true, ⟨[]⟩) := by
  have h := c6_pairing_rendezvous_single_close
  refine ⟨(h.1 ⟨[]⟩ "t:0" 7 rfl).1, ?_⟩
  have h4 := h.2.2.2.1 ⟨[("t:0", 7)]⟩ "t:0" 7 (by decide)
  simpa using h4

/-! ## §4.1 Identity Store: `NickDB` (src/server/main.go:104-158)

The in-memory store is the `NickToKey` map, modelled as an association
list (in some iteration order); nicknames and keys are character lists so
the on-disk format can be modelled exactly.  `Register` is the code's
`NickDB.Register` (the presented public key enters as its serialized
base64 string).  `saveContent` is the byte content `NickDB.Save` writes
(one `<nick> <key>\n` record per binding, in map iteration order);
`parseContent` is the parsing loop of `LoadNickDB`: scan lines, split each
at the first space into two parts, skip lines without a space, and insert
into a fresh map. -/

inductive RegResult where
  | ok
  | conflict
  deriving DecidableEq, Repr

/-- `NickDB.Register` (src/server/main.go:146-158). -/
def Register (nick key : Str) (db : List (Str × Str)) : RegResult × List (Str × Str) :=
  match lookupA nick db with
  | some old => if old = key then (.ok, db) else (.conflict, db)
  | none => (.ok, insertA nick key db)

/-- Run a sequence of `Register` calls, returning the final store. -/
def runRegisters (calls : List (Str × Str)) (db : List (Str × Str)) : List (Str × Str) :=
  calls.foldl (fun d c => (Register c.1 c.2 d).2) db

/-- Run a sequence of `Register` calls, returning each call's result. -/
def registerTrace : List (Str × Str) → List (Str × Str) → List RegResult
  | [], _ => []
  | c :: rest, db =>
    let r := Register c.1 c.2 db
    r.1 :: registerTrace rest r.2

/-- `bufio.Scanner` line splitting (`ScanLines`): split on `\n`, no final
empty token for content ending in a newline, and a terminal `\r` of each
line is dropped. -/
def stripCR (l : Str) : Str :=
  if l.getLast? = some '\r' then l.dropLast else l

/-- A scanner over content ending in `\n` yields no final empty token. -/
def dropTrailingEmpty (ls : List Str) : List Str :=
  if ls.getLast? = some [] then ls.dropLast else ls

def scanLines (content : Str) : List Str :=
  if content = [] then []
  else (dropTrailingEmpty (splitOnC '\n' content)).map stripCR

/-- `strings.SplitN(line, " ", 2)`, exposed as the two parts when the line
contains a space (the only case `LoadNickDB` keeps). -/
def splitFirstSpace : Str → Option (Str × Str)
  | [] => none
  | c :: cs =>
    if c = ' ' then some ([], cs)
    else
      match splitFirstSpace cs with
      | none => none
      | some (a, b) => some (c :: a, b)

/-- The scanning loop of `LoadNickDB` (src/server/main.go:120-127). -/
def loadLines (ls : List Str) (db : List (Str × Str)) : List (Str × Str) :=
  ls.foldl
    (fun d l =>
      match splitFirstSpace l with
      | some nk => insertA nk.1 nk.2 d
      | none => d)
    db

def parseContent (content : Str) : List (Str × Str) :=
  loadLines (scanLines content) []

/-- One `fmt.Fprintf(f, "%s %s\n", nick, key)` record, without the newline. -/
def renderLine (nk : Str × Str) : Str := nk.1 ++ ' ' :: nk.2

/-- The file content `NickDB.Save` (src/server/main.go:131-144) writes. -/
def saveContent (db : List (Str × Str)) : Str :=
  (db.map (fun nk => renderLine nk ++ ['\n'])).flatten

/-- The outcome of `os.Open` as `LoadNickDB` distinguishes it. -/
inductive OpenResult where
  | found (content : Str)
  | errNotExist
  | errOther
  deriving DecidableEq, Repr

/-- `LoadNickDB` (src/server/main.go:109-129): a missing file yields an
empty store and no error; any other open error is returned; otherwise the
file content is parsed. -/
def LoadNickDB : OpenResult → Except Unit (List (Str × Str))
  | .found content => .ok (parseContent content)
  | .errNotExist => .ok []
  | .errOther => .error ()

theorem Register_preserves_binding {n k : Str} (m x : Str) {db : List (Str × Str)}
    (h : lookupA n db = some k) : lookupA n (Register m x db).2 = some k := by
  unfold Register
  match hm : lookupA m db with
  | some old =>
    by_cases he : old = x <;> simp [he, h]
  | none =>
    have hne : n ≠ m := by
      intro heq
      rw [heq, hm] at h
      exact Option.noConfusion h
    simp [lookupA_insertA_ne _ _ hne, h]

theorem runRegisters_preserves_binding {n k : Str} (calls : List (Str × Str))
    {db : List (Str × Str)} (h : lookupA n db = some k) :
    lookupA n (runRegisters calls db) = some k := by
  induction calls generalizing db with
  | nil => exact h
  | cons c rest ih =>
    exact ih (Register_preserves_binding c.1 c.2 h)

theorem Register_ok_binds {n k : Str} {db : List (Str × Str)}
    (h : (Register n k db).1 = .ok) : lookupA n (Register n k db).2 = some k := by
  cases hm : lookupA n db with
  | none =>
    have hr : Register n k db = (.ok, insertA n k db) := by simp [Register, hm]
    rw [hr]
    simp [lookupA_insertA_self]
  | some old =>
    by_cases he : old = k
    · have hr : Register n k db = (.ok, db) := by simp [Register, hm, he]
      rw [hr]
      simpa [he] using hm
    · have hr : Register n k db = (.conflict, db) := by simp [Register, hm, he]
      rw [hr] at h
      simp at h

/-- C8 counterexample to the claim's final sentence: starting from an
empty store, the call sequence `(alice, K3); (alice, K1); (alice, K2)`
contains two calls presenting the same nickname with differing keys (`K1`
and `K2`), yet neither is accepted — both are refused with `conflict`
because `alice` is already bound to `K3`. -/
theorem c8_two_differing_keys_both_conflict :
    registerTrace
        [("alice".toList, "K3".toList), ("alice".toList, "K1".toList),
          ("alice".toList, "K2".toList)] []
      = [.ok, .conflict, .conflict]
    ∧ "K1".toList ≠ "K2".toList := by
  exact ⟨by decide, by decide⟩

/-- C8 (amended): `register-or-check` binds an unbound nickname and
returns ok, accepts a re-presentation of the same key without changing the
store, and refuses a differing key with `conflict` leaving the store
unchanged; hence two calls presenting the same nickname with differing
keys never both succeed — at most one of the two keys is ever accepted,
and once one of them has been accepted the other is always refused with
`conflict` (both may be refused if the nickname is already bound to some
third key). -/
theorem c8_register_or_check (nick key k2 : Str) (db : List (Str × Str))
    (calls : List (Str × Str)) :
    (lookupA nick db = none → Register nick key db = (.ok, insertA nick key db))
    ∧ (lookupA nick db = some key → Register nick key db = (.ok, db))
    ∧ (∀ old, lookupA nick db = some old → old ≠ key →
        Register nick key db = (.conflict, db))
    ∧ ((Register nick key db).1 = .ok → k2 ≠ key →
        (Register nick k2 (runRegisters calls (Register nick key db).2)).1
          = .conflict) := by
  refine ⟨?_, ?_, ?_, ?_⟩
  · intro h
    simp [Register, h]
  · intro h
    simp [Register, h]
  · intro old h hne
    simp [Register, h, hne]
  · intro hok hne
    have h1 := Register_ok_binds hok
    have h2 := runRegisters_preserves_binding calls h1
    generalize hG : runRegisters calls (Register nick key db).2 = db2 at h2
    simp [Register, h2, Ne.symm hne]

/-- Witness for C8 at concrete inputs: `alice` binds `K1` from the empty
store; after an unrelated registration the key `K2` is refused. -/
theorem c8_register_or_check_witness :
    (Register "alice".toList "K2".toList
      (runRegisters [("bob".toList, "KB".toList)]
        (Register "alice".toList "K1".toList []).2)).1 = .conflict := by
  have h := c8_register_or_check "alice".toList "K1".toList "K2".toList []
    [("bob".toList, "KB".toList)]
  exact h.2.2.2 (by decide) (by decide)

theorem splitOnC_records (lines : List Str) (h : ∀ l ∈ lines, '\n' ∉ l) :
    splitOnC '\n' ((lines.map (fun l => l ++ ['\n'])).flatten) = lines ++ [[]] := by
  induction lines with
  | nil => rfl
  | cons l rest ih =>
    have hl : '\n' ∉ l := h l (List.mem_cons_self l rest)
    have hrest : ∀ x ∈ rest, '\n' ∉ x := fun x hx => h x (List.mem_cons_of_mem _ hx)
    have hflat : ((l :: rest).map (fun s => s ++ ['\n'])).flatten
        = l ++ '\n' :: ((rest.map (fun s => s ++ ['\n'])).flatten) := by
      simp
    rw [hflat, splitOnC_append _ hl, ih hrest]
    rfl

theorem dropTrailingEmpty_concat (xs : List Str) :
    dropTrailingEmpty (xs ++ [[]]) = xs := by
  unfold dropTrailingEmpty
  rw [List.getLast?_concat]
  simp [List.dropLast_concat]

theorem scanLines_records (lines : List Str)
    (h1 : ∀ l ∈ lines, '\n' ∉ l) (h2 : ∀ l ∈ lines, l.getLast? ≠ some '\r') :
    scanLines ((lines.map (fun l => l ++ ['\n'])).flatten) = lines := by
  cases lines with
  | nil => rfl
  | cons l rest =>
    have hne : (((l :: rest).map (fun s => s ++ ['\n'])).flatten) ≠ [] := by
      simp
    unfold scanLines
    rw [if_neg hne, splitOnC_records _ h1, dropTrailingEmpty_concat]
    have hfix : ∀ s ∈ (l :: rest), stripCR s = id s := by
      intro s hs
      unfold stripCR
      rw [if_neg (h2 s hs)]
      rfl
    rw [List.map_congr_left hfix, List.map_id]

theorem splitFirstSpace_record {n : Str} (k : Str) (h : ' ' ∉ n) :
    splitFirstSpace (n ++ ' ' :: k) = some (n, k) := by
  induction n with
  | nil => simp [splitFirstSpace]
  | cons c cs ih =>
    have hc : c ≠ ' ' := fun he => h (he ▸ List.mem_cons_self c cs)
    have hcs : ' ' ∉ cs := fun hm => h (List.mem_cons_of_mem _ hm)
    simp [splitFirstSpace, hc, ih hcs]

theorem renderLine_no_newline {nk : Str × Str} (hn : '\n' ∉ nk.1) (hk : '\n' ∉ nk.2) :
    '\n' ∉ renderLine nk := by
  unfold renderLine
  intro hmem
  rcases List.mem_append.mp hmem with h | h
  · exact hn h
  · rcases List.mem_cons.mp h with h2 | h2
    · exact absurd h2 (by decide)
    · exact hk h2

theorem renderLine_getLast_ne_cr {nk : Str × Str}
    (hk : nk.2.getLast? ≠ some '\r') : (renderLine nk).getLast? ≠ some '\r' := by
  unfold renderLine
  obtain ⟨n, k⟩ := nk
  cases k with
  | nil =>
    rw [show n ++ [' '] = n ++ [' '] from rfl, List.getLast?_concat]
    intro h
    exact absurd h (by decide)
  | cons c cs =>
    rw [List.getLast?_append_cons, List.getLast?_cons_cons]
    exact hk

theorem lookupA_eq_none_of_not_mem {α β : Type} [DecidableEq α] {x : α}
    {m : List (α × β)} (h : x ∉ m.map Prod.fst) : lookupA x m = none := by
  induction m with
  | nil => rfl
  | cons hd tl ih =>
    obtain ⟨k, v⟩ := hd
    simp only [List.map_cons, List.mem_cons, not_or] at h
    simp [lookupA, h.1, ih h.2]

theorem loadLines_records (db : List (Str × Str)) (h : ∀ nk ∈ db, ' ' ∉ nk.1)
    (acc : List (Str × Str)) :
    loadLines (db.map renderLine) acc
      = db.foldl (fun d nk => insertA nk.1 nk.2 d) acc := by
  induction db generalizing acc with
  | nil => rfl
  | cons nk rest ih =>
    have hs : splitFirstSpace (renderLine nk) = some (nk.1, nk.2) :=
      splitFirstSpace_record nk.2 (h nk (List.mem_cons_self nk rest))
    simp only [List.map_cons, loadLines, List.foldl_cons, hs]
    exact ih (fun nk' h' => h nk' (List.mem_cons_of_mem _ h')) _

theorem foldl_insertA_lookupA {α β : Type} [DecidableEq α] (x : α)
    (pairs : List (α × β)) (acc : List (α × β))
    (hnd : (pairs.map Prod.fst).Nodup) :
    lookupA x (pairs.foldl (fun d nk => insertA nk.1 nk.2 d) acc)
      = match lookupA x pairs with
        | some v => some v
        | none => lookupA x acc := by
  induction pairs generalizing acc with
  | nil => rfl
  | cons nk rest ih =>
    obtain ⟨n, v⟩ := nk
    simp only [List.map_cons, List.nodup_cons] at hnd
    simp only [List.foldl_cons]
    rw [ih _ hnd.2]
    by_cases hx : x = n
    · subst hx
      rw [lookupA_eq_none_of_not_mem hnd.1]
      simp [lookupA, lookupA_insertA_self]
    · simp [lookupA, hx, lookupA_insertA_ne _ _ hx]

/-- C9 counterexample: a store binding the space-containing nickname
`a b` to key `K` does not survive a save/load round trip — the loader
splits the written line `a b K` at its first space, recovering the
binding `a ↦ b K` instead. -/
theorem c9_roundtrip_fails_on_space_in_nickname :
    lookupA "a b".toList (parseContent (saveContent [("a b".toList, "K".toList)]))
      ≠ lookupA "a b".toList [("a b".toList, "K".toList)]
    ∧ parseContent (saveContent [("a b".toList, "K".toList)])
      = [("a".toList, "b K".toList)] := by
  exact ⟨by decide, by decide⟩

/-- C9 (amended): for every identity-store state whose nicknames contain
no space and no newline and whose keys contain no newline and do not end
in a carriage return (true of all stores the server builds: keys are
base64 strings), saving the store and loading the produced file content
yields exactly the same set of `(nickname, key)` bindings. -/
theorem c9_save_load_roundtrip (db : List (Str × Str))
    (hnd : (db.map Prod.fst).Nodup)
    (hwf : ∀ nk ∈ db, ' ' ∉ nk.1 ∧ '\n' ∉ nk.1 ∧ '\n' ∉ nk.2
      ∧ nk.2.getLast? ≠ some '\r') :
    ∀ n, lookupA n (parseContent (saveContent db)) = lookupA n db := by
  intro x
  have hscan : scanLines (saveContent db) = db.map renderLine := by
    unfold saveContent
    rw [show db.map (fun nk => renderLine nk ++ ['\n'])
        = (db.map renderLine).map (fun l => l ++ ['\n']) from by rw [List.map_map]; rfl]
    apply scanLines_records
    · intro l hl
      obtain ⟨nk, hnk, rfl⟩ := List.mem_map.mp hl
      exact renderLine_no_newline (hwf nk hnk).2.1 (hwf nk hnk).2.2.1
    · intro l hl
      obtain ⟨nk, hnk, rfl⟩ := List.mem_map.mp hl
      exact renderLine_getLast_ne_cr (hwf nk hnk).2.2.2
  unfold parseContent
  rw [hscan, loadLines_records db (fun nk h => (hwf nk h).1),
    foldl_insertA_lookupA x db [] hnd]
  cases h : lookupA x db <;> simp [lookupA]

/-- Witness for C9's amended round trip at a concrete well-formed store. -/
theorem c9_save_load_roundtrip_witness :
    lookupA "alice".toList
        (parseContent (saveContent [("alice".toList, "QUJD".toList)]))
      = some "QUJD".toList := by
  have h := c9_save_load_roundtrip [("alice".toList, "QUJD".toList)]
    (by decide) (by decide) "alice".toList
  rw [h]
  decide

/-- C10: loading the identity store behaves by open outcome — a missing
file yields an empty store with no error, any other open error is the
only load failure, and a readable file parses successfully. -/
theorem c10_load_missing_file_yields_empty_store :
    LoadNickDB .errNotExist = .ok []
    ∧ LoadNickDB .errOther = .error ()
    ∧ ∀ content, LoadNickDB (.found content) = .ok (parseContent content) := by
  exact ⟨rfl, rfl, fun _ => rfl⟩

/-! ## §4.3 File Registry (src/unnamed/part_000, files.go)

`files` maps nickname → shared catalog; a Go map's iteration order is
unspecified, so the registry is an association list whose list order
stands for one iteration order, and two permuted lists denote the same
registry contents.  `sortDesc` models `sort.Slice(allFiles, less)` with
`less i j = Size i > Size j`: it produces an arrangement that is sorted
by the comparator (the Go sort guarantees no more — it is not stable). -/

structure SharedFile where
  name : String
  size : Int
  isDir : Bool
  deriving DecidableEq, Repr

structure SearchResult where
  fileName : String
  size : Int
  peer : String
  deriving DecidableEq, Repr

abbrev Registry := List (String × List SharedFile)

/-- `FileRegistry.UpdateUserFiles`: a non-empty list replaces the user's
catalog; an empty list evicts the user entry. -/
def UpdateUserFiles (nickname : String) (fileList : List SharedFile)
    (r : Registry) : Registry :=
  if fileList.length > 0 then insertA nickname fileList r else eraseA nickname r

/-- `FileRegistry.RemoveUser`. -/
def RemoveUser (nickname : String) (r : Registry) : Registry :=
  eraseA nickname r

/-- `FileRegistry.FindFile`: first exactly-named file of the owner. -/
def FindFile (filename owner : String) (r : Registry) : Option SharedFile :=
  match lookupA owner r with
  | none => none
  | some files => files.find? (fun f => f.name == filename)

/-- `strings.Contains` on character lists. -/
def containsSub (needle : Str) : Str → Bool
  | [] => isPre needle []
  | c :: rest => isPre needle (c :: rest) || containsSub needle rest

/-- `strings.TrimSpace`. -/
def trimSpace (s : Str) : Str :=
  ((s.dropWhile Char.isWhitespace).reverse.dropWhile Char.isWhitespace).reverse

/-- `strings.ToLower` on character lists. -/
def lowerStr (s : Str) : Str := s.map Char.toLower

/-- `FileRegistry.Search`: case-insensitive substring match over
non-directory entries, in registry iteration order. -/
def Search (query : String) (r : Registry) : List SearchResult :=
  let q := lowerStr (trimSpace query.toList)
  if q = [] then []
  else
    (r.map (fun entry =>
      entry.2.filterMap (fun f =>
        if !f.isDir && containsSub q (lowerStr f.name.toList) then
          some ⟨f.name, f.size, entry.1⟩
        else none))).flatten

/-- The collection loop of `FileRegistry.TopFiles`. -/
def collectFiles (r : Registry) : List SearchResult :=
  (r.map (fun entry =>
    entry.2.filterMap (fun f =>
      if f.isDir then none else some ⟨f.name, f.size, entry.1⟩))).flatten

/-- Insertion by the comparator `Size i > Size j` of the Go `sort.Slice`
call. -/
def insDesc (x : SearchResult) : List SearchResult → List SearchResult
  | [] => [x]
  | y :: ys => if x.size > y.size then x :: y :: ys else y :: insDesc x ys

def sortDesc (l : List SearchResult) : List SearchResult :=
  l.foldr insDesc []

/-- `FileRegistry.TopFiles`. -/
def TopFiles (limit : Nat) (r : Registry) : List SearchResult :=
  (sortDesc (collectFiles r)).take limit

theorem mem_insDesc {z x : SearchResult} {l : List SearchResult} :
    z ∈ insDesc x l ↔ z = x ∨ z ∈ l := by
  induction l with
  | nil => simp [insDesc]
  | cons y ys ih =>
    by_cases h : x.size > y.size
    · simp [insDesc, h]
    · simp only [insDesc, if_neg h, List.mem_cons, ih]
      tauto

theorem pairwise_insDesc {x : SearchResult} {l : List SearchResult}
    (h : List.Pairwise (fun a b => b.size ≤ a.size) l) :
    List.Pairwise (fun a b => b.size ≤ a.size) (insDesc x l) := by
  induction l with
  | nil => simp [insDesc]
  | cons y ys ih =>
    rcases List.pairwise_cons.mp h with ⟨hy, hys⟩
    by_cases hgt : x.size > y.size
    · rw [insDesc, if_pos hgt]
      refine List.pairwise_cons.mpr ⟨?_, h⟩
      intro z hz
      rcases List.mem_cons.mp hz with rfl | hz2
      · exact le_of_lt hgt
      · exact le_trans (hy z hz2) (le_of_lt hgt)
    · rw [insDesc, if_neg hgt]
      refine List.pairwise_cons.mpr ⟨?_, ih hys⟩
      intro z hz
      rcases mem_insDesc.mp hz with rfl | hz2
      · exact le_of_not_lt hgt
      · exact hy z hz2

theorem pairwise_sortDesc (l : List SearchResult) :
    List.Pairwise (fun a b => b.size ≤ a.size) (sortDesc l) := by
  induction l with
  | nil => exact List.Pairwise.nil
  | cons x xs ih => exact pairwise_insDesc ih

theorem mem_sortDesc {z : SearchResult} {l : List SearchResult} :
    z ∈ sortDesc l ↔ z ∈ l := by
  induction l with
  | nil => simp [sortDesc]
  | cons x xs ih =>
    show z ∈ insDesc x (sortDesc xs) ↔ _
    rw [mem_insDesc]
    simp [ih]

/-- C7 counterexample: two association lists that are permutations of
each other — the same registry contents under two map iteration orders —
produce different `TopFiles` outputs when two shared files tie in size,
so the output is not a function of the registry contents alone. -/
theorem c7_top_files_order_depends_on_iteration :
    (([("a", [⟨"f", 5, false⟩]), ("b", [⟨"g", 5, false⟩])] : Registry).Perm
        [("b", [⟨"g", 5, false⟩]), ("a", [⟨"f", 5, false⟩])])
    ∧ TopFiles 50 [("a", [⟨"f", 5, false⟩]), ("b", [⟨"g", 5, false⟩])]
      ≠ TopFiles 50 [("b", [⟨"g", 5, false⟩]), ("a", [⟨"f", 5, false⟩])] := by
  constructor
  · exact List.Perm.swap _ _ _
  · decide

/-- C7 (amended): for every n and registry state, `top(n)` returns at
most n entries, each derived from a non-directory shared file, ordered by
size descending (non-strictly); the relative order of equal-size entries
follows the registry's map iteration order, so it is deterministic within
one call but not a function of the registry contents. -/
theorem c7_top_files_bounded_sorted (r : Registry) (n : Nat) :
    (TopFiles n r).length ≤ n
    ∧ List.Pairwise (fun a b => b.size ≤ a.size) (TopFiles n r)
    ∧ ∀ res ∈ TopFiles n r, ∃ u files f, (u, files) ∈ r ∧ f ∈ files
        ∧ f.isDir = false ∧ res = ⟨f.name, f.size, u⟩ := by
  refine ⟨?_, ?_, ?_⟩
  · rw [TopFiles, List.length_take]
    exact min_le_left _ _
  · exact (pairwise_sortDesc (collectFiles r)).sublist (List.take_sublist _ _)
  · intro res hres
    have h1 : res ∈ sortDesc (collectFiles r) := List.take_subset _ _ hres
    have h2 : res ∈ collectFiles r := mem_sortDesc.mp h1
    rcases List.mem_flatten.mp h2 with ⟨sub, hsub, hres2⟩
    rcases List.mem_map.mp hsub with ⟨entry, hentry, rfl⟩
    rcases List.mem_filterMap.mp hres2 with ⟨f, hf, hres3⟩
    by_cases hd : f.isDir
    · rw [if_pos hd] at hres3
      exact absurd hres3 (by simp)
    · rw [if_neg hd] at hres3
      exact ⟨entry.1, entry.2, f, hentry, hf, Bool.eq_false_iff.mpr hd,
        (Option.some.injEq _ _ ▸ hres3).symm⟩

/-- Witness for C7's amended theorem at a concrete one-user registry. -/
theorem c7_top_files_bounded_sorted_witness :
    (TopFiles 5 [("u", [⟨"x", 3, false⟩])]).length ≤ 5
    ∧ ∃ u files f, (u, files) ∈ ([("u", [⟨"x", 3, false⟩])] : Registry)
        ∧ f ∈ files ∧ f.isDir = false
        ∧ (⟨"x", 3, "u"⟩ : SearchResult) = ⟨f.name, f.size, u⟩ := by
  have h := c7_top_files_bounded_sorted [("u", [⟨"x", 3, false⟩])] 5
  exact ⟨h.1, h.2.2 ⟨"x", 3, "u"⟩ (by decide)⟩

/-! ## §4.5 Chat Hub (src/unnamed/part_003)

The hub state carries the online-clients table (nickname → outbound
queue, capacity 16), the file registry it drives, the transfer table and
the completed-transfer counter.  Every handler below is the body of the
corresponding Go function; each runs as one atomic step (the Go code
takes `hub.mu` around each table access).  `now` stands for
`time.Now().Format("15:04")` and `freshId` for the value of
`generateTransferID()`. -/

inductive Payload where
  | chatB (timestamp nickname text : String) (isSystem : Bool)
  | searchRes (results : List SearchResult)
  | netStats (users : List String)
      (relayServers totalUsers activeTransfers totalTransfers : Nat)
  | tStart (transferID fileName : String) (size : Int) (fromUser : String)
  | upReq (transferID fileName : String)
  | upData (transferID data : String)
  | upDone (transferID : String)
  | tErr (transferID message : String)
  deriving DecidableEq, Repr

structure OutMsg where
  type : String
  payload : Payload
  deriving DecidableEq, Repr

/-- Server-side state of an active transfer (part_003:17-24). -/
structure TransferInfo where
  id : String
  fileName : String
  size : Int
  fromUser : String
  toUser : String
  deriving DecidableEq, Repr

/-- Outbound queue bound: `make(chan []byte, 16)` (part_003:66). -/
def queueCap : Nat := 16

structure SysState where
  clients : List (String × List OutMsg)
  registry : Registry
  transfers : List (String × TransferInfo)
  totalTransfers : Nat
  deriving DecidableEq, Repr

/-- Non-blocking enqueue: `select { case c.outgoing <- msg: default: }` —
a full queue drops the message. -/
def enqueue (q : List OutMsg) (m : OutMsg) : List OutMsg :=
  if q.length < queueCap then q ++ [m] else q

/-- `ChatHub.broadcast` (part_003:93-112): try-enqueue the marshalled
message to every client whose nickname differs from `fro`. -/
def broadcast (msgType : String) (p : Payload) (fro : String) (st : SysState) :
    SysState :=
  let f := fun (e : String × List OutMsg) =>
    (e.1, if e.1 = fro then e.2 else enqueue e.2 ⟨msgType, p⟩)
  { st with clients := st.clients.map f }

def updateQ (dst : String) (m : OutMsg) (cs : List (String × List OutMsg)) :
    List (String × List OutMsg) :=
  cs.map (fun e => (e.1, if e.1 = dst then enqueue e.2 m else e.2))

/-- `ChatHub.unicast` (part_003:115-138): fails when the target is
offline or its queue is full. -/
def unicast (msgType : String) (p : Payload) (dst : String) (st : SysState) :
    Bool × SysState :=
  match lookupA dst st.clients with
  | none => (false, st)
  | some q =>
    if q.length < queueCap then
      (true, { st with clients := updateQ dst ⟨msgType, p⟩ st.clients })
    else (false, st)

/-- `ChatClient.send` (part_003:146-153): a blocking enqueue to the
client's own queue (the writer eventually drains it). -/
def send (self msgType : String) (p : Payload) (st : SysState) : SysState :=
  let f := fun (e : String × List OutMsg) =>
    (e.1, if e.1 = self then e.2 ++ [⟨msgType, p⟩] else e.2)
  { st with clients := st.clients.map f }

/-- `ChatClient.relayTransferMessage` (part_003:311-327): the transfer id
must exist and the sender must be the transfer's from-user, else the
message is dropped with no reply; on success the payload is unicast to
the transfer's to-user. -/
def relayTransferMessage (sender msgType : String) (p : Payload)
    (transferID : String) (st : SysState) : SysState :=
  match lookupA transferID st.transfers with
  | none => st
  | some transfer =>
    if transfer.fromUser ≠ sender then st
    else (unicast msgType p transfer.toUser st).2

/-- `ChatClient.initiateFileTransfer` (part_003:263-309). -/
def initiateFileTransfer (self filename peer freshId : String) (st : SysState) :
    SysState :=
  if peer = self then
    send self "transfer_error" (.tErr "" "You cannot download your own file.") st
  else
    match FindFile filename peer st.registry with
    | none =>
      send self "transfer_error"
        (.tErr "" ("File not found or peer " ++ peer ++ " does not own it.")) st
    | some fileInfo =>
      let tr := insertA freshId ⟨freshId, filename, fileInfo.size, peer, self⟩ st.transfers
      let st1 := { st with transfers := tr }
      let st2 := send self "transfer_start"
        (.tStart freshId filename fileInfo.size peer) st1
      (unicast "upload_request" (.upReq freshId filename) peer st2).2

inductive InMsg where
  | share (files : List SharedFile)
  | search (query : String)
  | topFiles
  | getStats
  | getFile (fileName peer : String)
  | chatMessage (text : String)
  | uploadData (transferID data : String)
  | uploadDone (transferID : String)
  | uploadError (transferID message : String)
  | unknown
  deriving DecidableEq, Repr

/-- `ChatClient.handleMessage` (part_003:173-261). -/
def handleMessage (now freshId sender : String) (msg : InMsg) (st : SysState) :
    SysState :=
  match msg with
  | .share files => { st with registry := UpdateUserFiles sender files st.registry }
  | .search q => send sender "search_results" (.searchRes (Search q st.registry)) st
  | .topFiles =>
    send sender "search_results" (.searchRes (TopFiles 50 st.registry)) st
  | .getStats =>
    let users := st.clients.map Prod.fst
    send sender "network_stats"
      (.netStats users 1 users.length st.transfers.length st.totalTransfers) st
  | .getFile fileName peer => initiateFileTransfer sender fileName peer freshId st
  | .chatMessage text => broadcast "chat_broadcast" (.chatB now sender text false) "" st
  | .uploadData tid data =>
    relayTransferMessage sender "upload_data" (.upData tid data) tid st
  | .uploadDone tid =>
    let st1 := relayTransferMessage sender "upload_done" (.upDone tid) tid st
    { st1 with transfers := eraseA tid st1.transfers,
               totalTransfers := st1.totalTransfers + 1 }
  | .uploadError tid message =>
    let st1 := relayTransferMessage sender "transfer_error" (.tErr tid message) tid st
    { st1 with transfers := eraseA tid st1.transfers }
  | .unknown => st

/-- The transfer id a message is relayed under, when it is one of the
three relayed upload messages. -/
def relayedTransferID : InMsg → Option String
  | .uploadData tid _ => some tid
  | .uploadDone tid => some tid
  | .uploadError tid _ => some tid
  | _ => none

theorem lookupA_broadcast (msgType : String) (p : Payload) (fro nick : String)
    (st : SysState) :
    lookupA nick (broadcast msgType p fro st).clients
      = Option.map (fun q => if nick = fro then q else enqueue q ⟨msgType, p⟩)
          (lookupA nick st.clients) := by
  obtain ⟨cs, reg, tr, tt⟩ := st
  show lookupA nick (cs.map _) = _
  induction cs with
  | nil => rfl
  | cons e rest ih =>
    obtain ⟨n, q⟩ := e
    by_cases hn : nick = n
    · subst hn
      simp [lookupA]
    · simpa [lookupA, hn] using ih

theorem lookupA_updateQ (dst : String) (m : OutMsg) (nick : String)
    (cs : List (String × List OutMsg)) :
    lookupA nick (updateQ dst m cs)
      = Option.map (fun q => if nick = dst then enqueue q m else q)
          (lookupA nick cs) := by
  induction cs with
  | nil => rfl
  | cons e rest ih =>
    obtain ⟨n, q⟩ := e
    by_cases hn : nick = n
    · subst hn
      simp [updateQ, lookupA]
    · simpa [updateQ, lookupA, hn] using ih

theorem unicast_snd (mt : String) (p : Payload) (dst : String) (st : SysState) :
    (unicast mt p dst st).2 = st
    ∨ (unicast mt p dst st).2 = { st with clients := updateQ dst ⟨mt, p⟩ st.clients } := by
  unfold unicast
  cases h : lookupA dst st.clients with
  | none => exact Or.inl rfl
  | some q =>
    by_cases hq : q.length < queueCap
    · exact Or.inr (by simp [hq])
    · exact Or.inl (by simp [hq])

@[simp] theorem broadcast_transfers (mt : String) (p : Payload) (fro : String)
    (st : SysState) : (broadcast mt p fro st).transfers = st.transfers := rfl

@[simp] theorem broadcast_total (mt : String) (p : Payload) (fro : String)
    (st : SysState) : (broadcast mt p fro st).totalTransfers = st.totalTransfers := rfl

@[simp] theorem send_transfers (self mt : String) (p : Payload) (st : SysState) :
    (send self mt p st).transfers = st.transfers := rfl

@[simp] theorem send_total (self mt : String) (p : Payload) (st : SysState) :
    (send self mt p st).totalTransfers = st.totalTransfers := rfl

@[simp] theorem unicast_transfers (mt : String) (p : Payload) (dst : String)
    (st : SysState) : ((unicast mt p dst st).2).transfers = st.transfers := by
  rcases unicast_snd mt p dst st with h | h <;> rw [h]

@[simp] theorem unicast_total (mt : String) (p : Payload) (dst : String)
    (st : SysState) : ((unicast mt p dst st).2).totalTransfers = st.totalTransfers := by
  rcases unicast_snd mt p dst st with h | h <;> rw [h]

@[simp] theorem relay_transfers (sender mt : String) (p : Payload) (tid : String)
    (st : SysState) :
    (relayTransferMessage sender mt p tid st).transfers = st.transfers := by
  unfold relayTransferMessage
  cases lookupA tid st.transfers with
  | none => rfl
  | some t => by_cases h : t.fromUser ≠ sender <;> simp [h]

@[simp] theorem relay_total (sender mt : String) (p : Payload) (tid : String)
    (st : SysState) :
    (relayTransferMessage sender mt p tid st).totalTransfers = st.totalTransfers := by
  unfold relayTransferMessage
  cases lookupA tid st.transfers with
  | none => rfl
  | some t => by_cases h : t.fromUser ≠ sender <;> simp [h]

@[simp] theorem initiate_total (self filename peer freshId : String) (st : SysState) :
    (initiateFileTransfer self filename peer freshId st).totalTransfers
      = st.totalTransfers := by
  unfold initiateFileTransfer
  by_cases h : peer = self
  · simp [h]
  · rw [if_neg h]
    cases FindFile filename peer st.registry with
    | none => simp
    | some fileInfo => simp

theorem relay_fail_eq (sender mt : String) (p : Payload) (tid : String)
    (st : SysState)
    (h : lookupA tid st.transfers = none
      ∨ ∃ t, lookupA tid st.transfers = some t ∧ t.fromUser ≠ sender) :
    relayTransferMessage sender mt p tid st = st := by
  unfold relayTransferMessage
  rcases h with h | ⟨t, ht, hne⟩
  · rw [h]
  · rw [ht]
    simp [hne]

theorem relay_clients_changed (sender mt : String) (p : Payload) (tid : String)
    (st : SysState) (nick : String)
    (h : lookupA nick (relayTransferMessage sender mt p tid st).clients
      ≠ lookupA nick st.clients) :
    ∃ t, lookupA tid st.transfers = some t ∧ t.fromUser = sender
      ∧ nick = t.toUser := by
  cases ht : lookupA tid st.transfers with
  | none =>
    rw [relay_fail_eq sender mt p tid st (Or.inl ht)] at h
    exact absurd rfl h
  | some t =>
    by_cases hfu : t.fromUser ≠ sender
    · rw [relay_fail_eq sender mt p tid st (Or.inr ⟨t, ht, hfu⟩)] at h
      exact absurd rfl h
    · push_neg at hfu
      have hrel : relayTransferMessage sender mt p tid st
          = (unicast mt p t.toUser st).2 := by
        unfold relayTransferMessage
        rw [ht]
        simp [hfu]
      rw [hrel] at h
      refine ⟨t, rfl, hfu, ?_⟩
      by_contra hne
      apply h
      rcases unicast_snd mt p t.toUser st with he | he
      · rw [he]
      · rw [he]
        simp only [lookupA_updateQ]
        cases lookupA nick st.clients <;> simp [hne]

/-- C1: an inbound `upload_data`, `upload_done` or `upload_error` message
changes no client's queue at all when the cited transfer id is absent or
the sender differs from the transfer's from-user (nothing is forwarded
and no reply reaches the sender); and whenever any client's queue does
change, the transfer exists, the sender is its from-user, and the changed
queue belongs to the transfer's to-user. -/
theorem c1_upload_relay_security (now freshId sender : String) (msg : InMsg)
    (tid : String) (st : SysState) (htid : relayedTransferID msg = some tid) :
    ((lookupA tid st.transfers = none
        ∨ ∃ t, lookupA tid st.transfers = some t ∧ t.fromUser ≠ sender) →
      (handleMessage now freshId sender msg st).clients = st.clients)
    ∧ ∀ nick, lookupA nick (handleMessage now freshId sender msg st).clients
          ≠ lookupA nick st.clients →
        ∃ t, lookupA tid st.transfers = some t ∧ t.fromUser = sender
          ∧ nick = t.toUser := by
  cases msg with
  | uploadData t d =>
    simp only [relayedTransferID, Option.some.injEq] at htid
    subst htid
    have hcl : (handleMessage now freshId sender (.uploadData t d) st).clients
        = (relayTransferMessage sender "upload_data" (.upData t d) t st).clients := rfl
    constructor
    · intro hfail
      rw [hcl, relay_fail_eq _ _ _ _ _ hfail]
    · intro nick h
      rw [hcl] at h
      exact relay_clients_changed _ _ _ _ _ _ h
  | uploadDone t =>
    simp only [relayedTransferID, Option.some.injEq] at htid
    subst htid
    have hcl : (handleMessage now freshId sender (.uploadDone t) st).clients
        = (relayTransferMessage sender "upload_done" (.upDone t) t st).clients := rfl
    constructor
    · intro hfail
      rw [hcl, relay_fail_eq _ _ _ _ _ hfail]
    · intro nick h
      rw [hcl] at h
      exact relay_clients_changed _ _ _ _ _ _ h
  | uploadError t m =>
    simp only [relayedTransferID, Option.some.injEq] at htid
    subst htid
    have hcl : (handleMessage now freshId sender (.uploadError t m) st).clients
        = (relayTransferMessage sender "transfer_error" (.tErr t m) t st).clients := rfl
    constructor
    · intro hfail
      rw [hcl, relay_fail_eq _ _ _ _ _ hfail]
    · intro nick h
      rw [hcl] at h
      exact relay_clients_changed _ _ _ _ _ _ h
  | share files => exact absurd htid (by simp [relayedTransferID])
  | search q => exact absurd htid (by simp [relayedTransferID])
  | topFiles => exact absurd htid (by simp [relayedTransferID])
  | getStats => exact absurd htid (by simp [relayedTransferID])
  | getFile f pr => exact absurd htid (by simp [relayedTransferID])
  | chatMessage text => exact absurd htid (by simp [relayedTransferID])
  | unknown => exact absurd htid (by simp [relayedTransferID])

/-- Witness for C1 at a concrete state: `carol` (not the from-user) sends
`upload_data` for an existing transfer from `alice` to `bob`; no queue
changes. -/
theorem c1_upload_relay_security_witness :
    (handleMessage "12:00" "x" "carol" (.uploadData "t" "zz")
        ⟨[("alice", []), ("bob", [])], [], [("t", ⟨"t", "f", 5, "alice", "bob"⟩)], 0⟩).clients
      = [("alice", []), ("bob", [])] := by
  have h := c1_upload_relay_security "12:00" "x" "carol" (.uploadData "t" "zz") "t"
    ⟨[("alice", []), ("bob", [])], [], [("t", ⟨"t", "f", 5, "alice", "bob"⟩)], 0⟩ rfl
  exact h.1 (Or.inr ⟨⟨"t", "f", 5, "alice", "bob"⟩, by decide, by decide⟩)

/-- C2 counterexample: with transfer `t` recorded from `alice` to `bob`,
the client `carol` — who is not the from-user, so the relay security
check rejects her message and no queue changes — sends `upload_done` for
`t`: the counter is nevertheless incremented from 0 to 1 and the transfer
record is deleted. -/
theorem c2_rejected_upload_done_still_counts :
    (handleMessage "12:00" "x" "carol" (.uploadDone "t")
        ⟨[("bob", [])], [], [("t", ⟨"t", "f", 5, "alice", "bob"⟩)], 0⟩).totalTransfers = 1
    ∧ lookupA "t" (handleMessage "12:00" "x" "carol" (.uploadDone "t")
        ⟨[("bob", [])], [], [("t", ⟨"t", "f", 5, "alice", "bob"⟩)], 0⟩).transfers = none
    ∧ (handleMessage "12:00" "x" "carol" (.uploadDone "t")
        ⟨[("bob", [])], [], [("t", ⟨"t", "f", 5, "alice", "bob"⟩)], 0⟩).clients
      = [("bob", [])]
    ∧ (⟨"t", "f", 5, "alice", "bob"⟩ : TransferInfo).fromUser ≠ "carol" := by
  refine ⟨by decide, by decide, by decide, by decide⟩

/-- C2 (amended): `total-transfers-completed` is monotone non-decreasing
across every inbound message, and it is incremented exactly once per
well-formed `upload_done` message processed — whether or not the relay
security check accepts the message; a failing `upload_done` still removes
the cited transfer record (when present).  Only `upload_done` changes the
counter. -/
theorem c2_total_transfers_monotone_unconditional
    (now freshId sender : String) (msg : InMsg) (st : SysState) :
    st.totalTransfers ≤ (handleMessage now freshId sender msg st).totalTransfers
    ∧ (∀ tid, (handleMessage now freshId sender (.uploadDone tid) st).totalTransfers
        = st.totalTransfers + 1)
    ∧ (∀ tid, (handleMessage now freshId sender (.uploadDone tid) st).transfers
        = eraseA tid st.transfers)
    ∧ (∀ tid data,
        (handleMessage now freshId sender (.uploadData tid data) st).totalTransfers
          = st.totalTransfers)
    ∧ (∀ tid message,
        (handleMessage now freshId sender (.uploadError tid message) st).totalTransfers
          = st.totalTransfers) := by
  refine ⟨?_, fun tid => by simp [handleMessage], fun tid => by simp [handleMessage],
    fun tid data => by simp [handleMessage], fun tid message => by simp [handleMessage]⟩
  cases msg with
  | share files => exact le_refl _
  | search q => exact le_of_eq (by simp [handleMessage])
  | topFiles => exact le_of_eq (by simp [handleMessage])
  | getStats => exact le_of_eq (by simp [handleMessage])
  | getFile f pr => exact le_of_eq (by simp [handleMessage])
  | chatMessage text => exact le_of_eq (by simp [handleMessage])
  | uploadData tid data => exact le_of_eq (by simp [handleMessage])
  | uploadDone tid => exact le_of_lt (by simp [handleMessage])
  | uploadError tid message => exact le_of_eq (by simp [handleMessage])
  | unknown => exact le_refl _

/-- C3 counterexample: `alice` sends a chat message; the resulting
`chat_broadcast` is enqueued to `alice`'s own queue as well as `bob`'s —
the fan-out does not exclude the origin, because the hub passes the empty
string as the excluded nickname. -/
theorem c3_origin_receives_own_chat_broadcast :
    lookupA "alice" (handleMessage "12:00" "x" "alice" (.chatMessage "hi")
        ⟨[("alice", []), ("bob", [])], [], [], 0⟩).clients
      = some [⟨"chat_broadcast", .chatB "12:00" "alice" "hi" false⟩]
    ∧ lookupA "bob" (handleMessage "12:00" "x" "alice" (.chatMessage "hi")
        ⟨[("alice", []), ("bob", [])], [], [], 0⟩).clients
      = some [⟨"chat_broadcast", .chatB "12:00" "alice" "hi" false⟩] := by
  refine ⟨by decide, by decide⟩

/-- C3 (amended): for every `chat_message` received from an online client
u, the `chat_broadcast` is try-enqueued to every online client —
including u itself (only a client whose nickname is the empty string
would be excluded, and authentication never admits one): each client with
a non-full queue receives the message appended, and a full queue drops
it. -/
theorem c3_chat_fanout_includes_origin
    (now freshId sender text nick : String) (st : SysState) (q : List OutMsg)
    (hq : lookupA nick st.clients = some q) (hnick : nick ≠ "") :
    lookupA nick (handleMessage now freshId sender (.chatMessage text) st).clients
      = some (enqueue q ⟨"chat_broadcast", .chatB now sender text false⟩) := by
  have h : (handleMessage now freshId sender (.chatMessage text) st)
      = broadcast "chat_broadcast" (.chatB now sender text false) "" st := rfl
  rw [h, lookupA_broadcast, hq]
  simp [hnick]

/-- Witness for C3's amended theorem: the sender itself, with an empty
queue, receives its own broadcast. -/
theorem c3_chat_fanout_includes_origin_witness :
    lookupA "alice" (handleMessage "12:00" "x" "alice" (.chatMessage "hi")
        ⟨[("alice", [])], [], [], 0⟩).clients
      = some (enqueue [] ⟨"chat_broadcast", .chatB "12:00" "alice" "hi" false⟩) := by
  exact c3_chat_fanout_includes_origin "12:00" "x" "alice" "hi" "alice"
    ⟨[("alice", [])], [], [], 0⟩ [] (by decide) (by decide)

/-! ## Session lifecycle: `ChatHub.Join` and `ChatClient.Close`
(part_003:62-86 and 344-359)

`Join` builds a fresh client (a new session, identified here by a numeric
id), stores it in `hub.clients[nickname]` — overwriting whatever entry
was there — and starts its loops.  It never consults, rejects, or closes
a pre-existing client for the same nickname.  `Close` is `sync.Once`
guarded: it removes the table entry under the client's own nickname and
marks the session closed.  A session is live once created by `Join` and
not yet closed. -/

structure Session where
  sid : Nat
  nickname : String
  deriving DecidableEq, Repr

structure HubSessions where
  clientsTab : List (String × Nat)
  sessions : List Session
  closed : List Nat
  deriving DecidableEq, Repr

/-- `ChatHub.Join`: insert-overwrite the table entry and start the new
session's loops; no existing session is touched. -/
def Join (nickname : String) (sid : Nat) (st : HubSessions) : HubSessions :=
  { st with clientsTab := insertA nickname sid st.clientsTab,
            sessions := st.sessions ++ [⟨sid, nickname⟩] }

/-- `ChatClient.Close` (once-guarded): remove the table entry keyed by
this client's nickname and mark the session closed. -/
def CloseSession (s : Session) (st : HubSessions) : HubSessions :=
  if s.sid ∈ st.closed then st
  else { st with clientsTab := eraseA s.nickname st.clientsTab,
                 closed := s.sid :: st.closed }

/-- A session that has been created and whose `Close` has not run. -/
def liveSession (st : HubSessions) (s : Session) : Prop :=
  s ∈ st.sessions ∧ s.sid ∉ st.closed

instance (st : HubSessions) (s : Session) : Decidable (liveSession st s) := by
  unfold liveSession
  infer_instance

theorem mem_keys_insertA {α β : Type} [DecidableEq α] {x k : α} (v : β)
    (m : List (α × β)) :
    x ∈ (insertA k v m).map Prod.fst ↔ x = k ∨ x ∈ m.map Prod.fst := by
  induction m with
  | nil => simp [insertA]
  | cons hd tl ih =>
    obtain ⟨k', v'⟩ := hd
    by_cases h : k = k'
    · subst h
      simp [insertA]
    · simp only [insertA, if_neg h, List.map_cons, List.mem_cons, ih]
      tauto

theorem nodup_keys_insertA {α β : Type} [DecidableEq α] (k : α) (v : β)
    {m : List (α × β)} (hnd : (m.map Prod.fst).Nodup) :
    ((insertA k v m).map Prod.fst).Nodup := by
  induction m with
  | nil => simp [insertA]
  | cons hd tl ih =>
    obtain ⟨k', v'⟩ := hd
    simp only [List.map_cons, List.nodup_cons] at hnd
    by_cases h : k = k'
    · subst h
      simpa [insertA] using hnd
    · simp only [insertA, if_neg h, List.map_cons, List.nodup_cons]
      refine ⟨?_, ih hnd.2⟩
      rw [mem_keys_insertA]
      rintro (he | hm)
      · exact h he.symm
      · exact hnd.1 hm

/-- C5 counterexample: two `Join` calls for the nickname `alice` (a
reconnect while the first session is still live) leave both sessions
live — the second `Join` overwrites the table entry but neither rejects
the new session nor closes the prior one. -/
theorem c5_second_join_leaves_prior_session_live :
    liveSession (Join "alice" 2 (Join "alice" 1 ⟨[], [], []⟩)) ⟨1, "alice"⟩
    ∧ liveSession (Join "alice" 2 (Join "alice" 1 ⟨[], [], []⟩)) ⟨2, "alice"⟩
    ∧ (⟨1, "alice"⟩ : Session) ≠ ⟨2, "alice"⟩ := by
  refine ⟨by decide, by decide, by decide⟩

/-- C5 (amended): the hub's online table always holds at most one entry
per nickname, and after `Join` the nickname maps to the new session, so
hub deliveries for that nickname reach only the most recent session (no
double delivery); but `Join` neither rejects the new session nor closes a
live prior one — every session live before a `Join` is still live after
it, so two concurrent live sessions for one nickname can exist. -/
theorem c5_join_overwrites_without_closing (st : HubSessions)
    (nickname : String) (sid : Nat) :
    lookupA nickname (Join nickname sid st).clientsTab = some sid
    ∧ ((st.clientsTab.map Prod.fst).Nodup →
        (((Join nickname sid st).clientsTab).map Prod.fst).Nodup)
    ∧ (∀ s, liveSession st s → liveSession (Join nickname sid st) s)
    ∧ (Join nickname sid st).closed = st.closed := by
  refine ⟨lookupA_insertA_self _ _ _, fun hnd => nodup_keys_insertA _ _ hnd, ?_, rfl⟩
  intro s hs
  exact ⟨List.mem_append_left _ hs.1, hs.2⟩

/-- Witness for C5's amended theorem: `alice` joins while `bob`'s session
is live; the table maps `alice` to the new session and `bob` stays live. -/
theorem c5_join_overwrites_without_closing_witness :
    lookupA "alice" (Join "alice" 1 ⟨[("bob", 7)], [⟨7, "bob"⟩], []⟩).clientsTab = some 1
    ∧ liveSession (Join "alice" 1 ⟨[("bob", 7)], [⟨7, "bob"⟩], []⟩) ⟨7, "bob"⟩ := by
  have h := c5_join_overwrites_without_closing ⟨[("bob", 7)], [⟨7, "bob"⟩], []⟩ "alice" 1
  exact ⟨h.1, h.2.2.1 ⟨7, "bob"⟩ (by decide)⟩

end RoseWire
